import Mathlib

/-!
Verification of the numeric-conversion module (`src/utils/num.ts`) of this
repository.  Strings are modelled as Lean `String`s (lists of characters),
JavaScript arbitrary-precision integers (`bigint`) as `Int`, and byte arrays
as `List Nat`.  Fallible operations return `Option` or `Except JsError`.

The module's own functions are translated directly from the TypeScript
source.  The external collaborators it relies on (the ECMAScript `BigInt`
constructor and `BigInt.prototype.toString`, `String.prototype.padStart`,
`String.prototype.toLowerCase`, the two regular expressions, the imported
`addHexPrefix` / `removeHexPrefix` helpers and the noble `hexToBytes`
primitive) are modelled below, each with a comment stating what it stands
for.
-/

deriving instance DecidableEq for Except

/-- Character class of the regex `\d`: a decimal digit `0`..`9`. -/
def isDecDigitChar (c : Char) : Bool :=
  48 ≤ c.toNat && c.toNat ≤ 57

/-- Character class `[0-9a-f]` taken case-insensitively (regex flag `i`),
i.e. `0`..`9`, `a`..`f` or `A`..`F`. -/
def isHexDigitChar (c : Char) : Bool :=
  (48 ≤ c.toNat && c.toNat ≤ 57) || (97 ≤ c.toNat && c.toNat ≤ 102) ||
    (65 ≤ c.toNat && c.toNat ≤ 70)

/-- Character class `[0-9a-f]` taken case-sensitively: a lowercase
hexadecimal digit. -/
def isLowerHexDigitChar (c : Char) : Bool :=
  (48 ≤ c.toNat && c.toNat ≤ 57) || (97 ≤ c.toNat && c.toNat ≤ 102)

/-- Numeric value of a (case-insensitive) hexadecimal digit character. -/
def hexCharVal (c : Char) : Nat :=
  if 48 ≤ c.toNat && c.toNat ≤ 57 then c.toNat - 48
  else if 97 ≤ c.toNat && c.toNat ≤ 102 then c.toNat - 87
  else if 65 ≤ c.toNat && c.toNat ≤ 70 then c.toNat - 55
  else 0

/-- Numeric value of a decimal digit character. -/
def decCharVal (c : Char) : Nat :=
  c.toNat - 48

/-- Digit character produced by `BigInt.prototype.toString` for a digit
value below 16: `0`..`9` then lowercase `a`..`f`. -/
def digitChar (n : Nat) : Char :=
  if n < 10 then Char.ofNat (48 + n) else Char.ofNat (87 + n)

/-- Modelled from the spec: ASCII lowercasing of one character, as performed
by `String.prototype.toLowerCase` on the inputs of interest (uppercase
letters `A`..`Z`, code points 65..90, are shifted by 32; every other
character of a hex string is unchanged). -/
def jsCharToLower (c : Char) : Char :=
  if 65 ≤ c.toNat && c.toNat ≤ 90 then Char.ofNat (c.toNat + 32) else c

/-- Value of a list of case-insensitive hexadecimal digit characters, most
significant first. -/
def hexCharsVal (l : List Char) : Nat :=
  l.foldl (fun a c => 16 * a + hexCharVal c) 0

/-- Value of a list of decimal digit characters, most significant first. -/
def decCharsVal (l : List Char) : Nat :=
  l.foldl (fun a c => 10 * a + decCharVal c) 0

/-- Modelled from the spec: the external arbitrary-precision integer
formatter (`BigInt.prototype.toString(16)` restricted to `Nat`): minimal
big-endian base-16 digit list, lowercase, `['0']` for zero. -/
def natToHexChars (n : Nat) : List Char :=
  if n < 16 then [digitChar n]
  else natToHexChars (n / 16) ++ [digitChar (n % 16)]
decreasing_by exact Nat.div_lt_self (by omega) (by omega)

/-- Modelled from the spec: the external arbitrary-precision integer
formatter (`BigInt.prototype.toString(10)` restricted to `Nat`): minimal
big-endian base-10 digit list, `['0']` for zero. -/
def natToDecChars (n : Nat) : List Char :=
  if n < 10 then [digitChar n]
  else natToDecChars (n / 10) ++ [digitChar (n % 10)]
decreasing_by exact Nat.div_lt_self (by omega) (by omega)

/-- Signed rendering in base 16: `BigInt.prototype.toString(16)` prints a
minus sign followed by the digits of the absolute value. -/
def bigIntToHexChars (i : Int) : List Char :=
  if i < 0 then '-' :: natToHexChars i.natAbs else natToHexChars i.toNat

/-- Signed rendering in base 10: `BigInt.prototype.toString(10)` prints a
minus sign followed by the digits of the absolute value. -/
def bigIntToDecChars (i : Int) : List Char :=
  if i < 0 then '-' :: natToDecChars i.natAbs else natToDecChars i.toNat

/-- Modelled from the spec: the external arbitrary-precision integer parser
(the ECMAScript `BigInt` constructor applied to a string, §6 of the spec:
it parses decimal and hex literal strings).  The empty string parses to 0;
a `0x`/`0X` literal needs at least one (case-insensitive) hex digit after
the prefix, so `BigInt` applied to the bare string `0x` fails; a decimal
literal is an optional sign followed by at least one decimal digit.
Anything else (for the string shapes reachable in this module) fails. -/
def parseBigIntChars (l : List Char) : Option Int :=
  match l with
  | [] => some 0
  | c :: rest =>
    if c = '0' ∧ (rest.head? = some 'x' ∨ rest.head? = some 'X') then
      if rest.drop 1 ≠ [] ∧ (rest.drop 1).all isHexDigitChar = true then
        some ((hexCharsVal (rest.drop 1) : Nat) : Int)
      else none
    else if c = '-' then
      if rest ≠ [] ∧ rest.all isDecDigitChar = true then
        some (-((decCharsVal rest : Nat) : Int))
      else none
    else if c = '+' then
      if rest ≠ [] ∧ rest.all isDecDigitChar = true then
        some ((decCharsVal rest : Nat) : Int)
      else none
    else
      if (c :: rest).all isDecDigitChar = true then
        some ((decCharsVal (c :: rest) : Nat) : Int)
      else none

/-- Modelled from the spec: `removeHexPrefix` from the repository's encode
helpers (not part of `src/`): `hex.replace` of the case-insensitive anchored
pattern `0x` by the empty string, i.e. strip a leading `0x` / `0X` if
present. -/
def removeHexPfxChars (l : List Char) : List Char :=
  if l.head? = some '0' ∧ ((l.drop 1).head? = some 'x' ∨ (l.drop 1).head? = some 'X') then
    l.drop 2
  else l

/-- Modelled from the spec: `addHexPrefix` from the repository's encode
helpers (not part of `src/`): prepend `0x`, first stripping an existing
(case-insensitive) prefix so the result carries exactly one `0x`. -/
def addHexPfxChars (l : List Char) : List Char :=
  '0' :: 'x' :: removeHexPfxChars l

/-- Modelled from the spec: `String.prototype.padStart(target, "0")` on the
character list: prepend zero characters up to the target length; a list
already long enough is returned unchanged. -/
def padStartChars (target : Nat) (c : Char) (l : List Char) : List Char :=
  List.replicate (target - l.length) c ++ l

/-- Modelled from the spec: the external noble `hexToBytes` primitive (§6,
assumed correct): decode pairs of case-insensitive hex digits into bytes,
failing on an odd-length list or a non-hex character. -/
def hexToBytesNobleChars : List Char → Option (List Nat)
  | [] => some []
  | [_] => none
  | c1 :: c2 :: rest =>
    if isHexDigitChar c1 = true ∧ isHexDigitChar c2 = true then
      (hexToBytesNobleChars rest).map (fun bs => (16 * hexCharVal c1 + hexCharVal c2) :: bs)
    else none

/-- Test of the regex `^0x[0-9a-f]*$` with flag `i`: first character `0`,
second character `x` or `X`, zero or more case-insensitive hex digits. -/
def isHexChars (l : List Char) : Bool :=
  decide (l.head? = some '0') &&
    decide ((l.drop 1).head? = some 'x' ∨ (l.drop 1).head? = some 'X') &&
    (l.drop 2).all isHexDigitChar

/-- Test of the regex `^\d+$`: a non-empty all-decimal-digit string. -/
def isWholeChars (l : List Char) : Bool :=
  !l.isEmpty && l.all isDecDigitChar

/-- Source `isHex`: test if a string matches `^0x[0-9a-f]*$` (flag `i`). -/
def isHex (hex : String) : Bool :=
  isHexChars hex.data

/-- Source `isStringWholeNumber`: test if a string matches `^\d+$`. -/
def isStringWholeNumber (str : String) : Bool :=
  isWholeChars str.data

/-- The `BigNumberish` union: a machine number (restricted to the integers,
the only values the `BigInt` constructor accepts), a `bigint`, or a
string. -/
inductive BigNumberish where
  | num : Int → BigNumberish
  | big : Int → BigNumberish
  | str : String → BigNumberish

/-- Source `toBigInt`: the `BigInt` constructor applied to a
`BigNumberish`. -/
def toBigInt : BigNumberish → Option Int
  | .num n => some n
  | .big i => some i
  | .str s => parseBigIntChars s.data

/-- Source `toHex`: `addHexPrefix(toBigInt(value).toString(16))`. -/
def toHex (value : BigNumberish) : Option String :=
  (toBigInt value).map (fun i => ⟨addHexPfxChars (bigIntToHexChars i)⟩)

/-- Source `toHexString`, an alias of `toHex`. -/
def toHexString : BigNumberish → Option String :=
  toHex

/-- Source `toStorageKey`:
`addHexPrefix(toBigInt(number).toString(16).padStart(64, "0"))`. -/
def toStorageKey (number : BigNumberish) : Option String :=
  (toBigInt number).map (fun i => ⟨addHexPfxChars (padStartChars 64 '0' (bigIntToHexChars i))⟩)

/-- Source `hexToDecimalString`: `BigInt(addHexPrefix(hex)).toString(10)`. -/
def hexToDecimalString (hex : String) : Option String :=
  (parseBigIntChars (addHexPfxChars hex.data)).map (fun i => ⟨bigIntToDecChars i⟩)

/-- Semantics of the anchored greedy replacement
`replace(^(0x)0+ by the capture 0x)` applied to an already lowercased
character list: when the list starts with `0x`, every leading zero of the
remainder is dropped (if the remainder does not start with `0` the
`dropWhile` removes nothing and the list is returned intact, exactly as
when the regex fails to match); otherwise the list is unchanged. -/
def cleanHexChars (l : List Char) : List Char :=
  let t := l.map jsCharToLower
  if t.head? = some '0' ∧ (t.drop 1).head? = some 'x' then
    '0' :: 'x' :: (t.drop 2).dropWhile (fun c => c = '0')
  else t

/-- Source `cleanHex`: lowercase, then strip the zeros matched by the
anchored pattern after the `0x` prefix. -/
def cleanHex (hex : String) : String :=
  ⟨cleanHexChars hex.data⟩

/-- Error values surfaced by the module, following the spec's taxonomy:
`parseError` for a failing `BigInt` conversion, `formatError` for the
module's own "needs to be ..." throws, `rangeError` for a failing range
assertion, `nobleError` for a failure inside the external byte decoder. -/
inductive JsError where
  | parseError : JsError
  | formatError : String → JsError
  | rangeError : String → JsError
  | nobleError : JsError
deriving DecidableEq

/-- Modelled from the spec: the `assert` helper from the repository's
assert module (not part of `src/`): throw an error carrying the given
message when the condition is false (§7: a failing range assertion is the
spec's RangeError). -/
def assert (condition : Bool) (message : String) : Except JsError Unit :=
  if condition then .ok () else .error (.rangeError message)

/-- Source `assertInRange`: build the message suffix from the input name
(the source defaults `inputName` to the empty string; the model takes it
explicitly), convert the three bounds with `BigInt`, then assert
`lower ≤ input ≤ upper`. -/
def assertInRange (input lowerBound upperBound : BigNumberish) (inputName : String) :
    Except JsError Unit :=
  let messageSuffix := if inputName = "" then "invalid length"
    else "invalid " ++ inputName ++ " length"
  match toBigInt input, toBigInt lowerBound, toBigInt upperBound with
  | some inputBigInt, some lowerBoundBigInt, some upperBoundBigInt =>
    assert (decide (lowerBoundBigInt ≤ inputBigInt) && decide (inputBigInt ≤ upperBoundBigInt))
      ("Message not signable, " ++ messageSuffix ++ ".")
  | _, _, _ => .error .parseError

/-- Source `getDecimalString`: hex strings are converted through
`hexToDecimalString`, whole-number strings are returned as-is, anything
else throws a FormatError. -/
def getDecimalString (str : String) : Except JsError String :=
  if isHex str = true then
    match hexToDecimalString str with
    | some d => .ok d
    | none => .error .parseError
  else if isStringWholeNumber str = true then .ok str
  else .error (.formatError (str ++ " needs to be a hex-string or whole-number-string"))

/-- Source `getHexString`: hex strings are returned as-is, whole-number
strings are converted through `toHexString`, anything else throws a
FormatError. -/
def getHexString (str : String) : Except JsError String :=
  if isHex str = true then .ok str
  else if isStringWholeNumber str = true then
    match toHexString (.str str) with
    | some h => .ok h
    | none => .error .parseError
  else .error (.formatError (str ++ " needs to be a hex-string or whole-number-string"))

/-- Source `hexToBytes`: reject non-hex input with a FormatError, strip the
prefix, left-pad one zero nibble when the digit count is odd, then decode
with the noble primitive. -/
def hexToBytes (str : String) : Except JsError (List Nat) :=
  if isHex str = false then .error (.formatError (str ++ " needs to be a hex-string"))
  else
    let adaptedValue := removeHexPfxChars str.data
    let padded := if adaptedValue.length % 2 ≠ 0 then '0' :: adaptedValue else adaptedValue
    match hexToBytesNobleChars padded with
    | some bs => .ok bs
    | none => .error .nobleError

/-- Modelled from the spec: ECMAScript division of two `BigInt`s, "the
quotient rounded toward zero": the sign of the operands times the `Nat`
quotient of the absolute values. -/
def jsBigIntDiv (a b : Int) : Int :=
  a.sign * b.sign * ((a.natAbs / b.natAbs : Nat) : Int)

/-- Source `addPercent`: `bigIntNum + (bigIntNum * BigInt(percent)) / 100n`
(the percent argument is a machine number, hence an integer here). -/
def addPercent (number : BigNumberish) (percent : Int) : Option Int :=
  (toBigInt number).map (fun bigIntNum => bigIntNum + jsBigIntDiv (bigIntNum * percent) 100)

/-- Source `isBigNumberish` restricted to the `BigNumberish` union itself:
numbers and bigints always pass, a string passes when it satisfies `isHex`
or `isStringWholeNumber`. -/
def isBigNumberish : BigNumberish → Bool
  | .num _ => true
  | .big _ => true
  | .str s => isHex s || isStringWholeNumber s

/-- Canonical hex string as worded by the spec (§3): a `0x` prefix followed
by at least one lowercase hex digit, with no leading zero digit except the
single digit `0` denoting zero itself.  This definition follows the spec's
words and is compared against what `toHex` computes. -/
def isCanonicalHexSpec (s : String) : Bool :=
  decide (s.data.head? = some '0') && decide ((s.data.drop 1).head? = some 'x') &&
    !(s.data.drop 2).isEmpty && (s.data.drop 2).all isLowerHexDigitChar &&
    (decide (s.data.drop 2 = ['0']) || !(decide ((s.data.drop 2).head? = some '0')))

/-! ### Character-level facts -/

theorem hexCharVal_digitChar : ∀ n, n < 16 → hexCharVal (digitChar n) = n := by decide

theorem decCharVal_digitChar : ∀ n, n < 10 → decCharVal (digitChar n) = n := by decide

theorem isLowerHex_digitChar : ∀ n, n < 16 → isLowerHexDigitChar (digitChar n) = true := by decide

theorem isDec_digitChar : ∀ n, n < 10 → isDecDigitChar (digitChar n) = true := by decide

theorem digitChar_ne_zero : ∀ n, n < 16 → n ≠ 0 → digitChar n ≠ '0' := by decide

theorem lowerHex_isHexDigit (c : Char) (h : isLowerHexDigitChar c = true) :
    isHexDigitChar c = true := by
  simp only [isLowerHexDigitChar, Bool.or_eq_true, Bool.and_eq_true, decide_eq_true_eq] at h
  simp only [isHexDigitChar, Bool.or_eq_true, Bool.and_eq_true, decide_eq_true_eq]
  omega

theorem lowerHex_ne_x (c : Char) (h : isLowerHexDigitChar c = true) : c ≠ 'x' ∧ c ≠ 'X' := by
  constructor <;> (intro he; subst he; exact absurd h (by decide))

theorem jsCharToLower_fix (c : Char) (h : isLowerHexDigitChar c = true) :
    jsCharToLower c = c := by
  simp only [isLowerHexDigitChar, Bool.or_eq_true, Bool.and_eq_true, decide_eq_true_eq] at h
  rw [jsCharToLower, if_neg]
  simp only [Bool.and_eq_true, decide_eq_true_eq, not_and, not_le]
  omega

theorem jsCharToLower_lowerHex (c : Char) (h : isHexDigitChar c = true) :
    isLowerHexDigitChar (jsCharToLower c) = true := by
  simp only [isHexDigitChar, Bool.or_eq_true, Bool.and_eq_true, decide_eq_true_eq] at h
  rw [jsCharToLower]
  by_cases hu : 65 ≤ c.toNat && c.toNat ≤ 90
  · rw [if_pos hu]
    simp only [Bool.and_eq_true, decide_eq_true_eq] at hu
    have h1 : 65 ≤ c.toNat := hu.1
    have h2 : c.toNat ≤ 70 := by omega
    set m := c.toNat with hm
    interval_cases m <;> decide
  · rw [if_neg hu]
    simp only [Bool.and_eq_true, decide_eq_true_eq, not_and, not_le] at hu
    simp only [isLowerHexDigitChar, Bool.or_eq_true, Bool.and_eq_true, decide_eq_true_eq]
    omega

/-! ### Facts about the base-16 and base-10 formatters -/

theorem natToHexChars_lt (n : Nat) (h : n < 16) : natToHexChars n = [digitChar n] := by
  rw [natToHexChars]; simp [h]

theorem natToHexChars_ge (n : Nat) (h : ¬ n < 16) :
    natToHexChars n = natToHexChars (n / 16) ++ [digitChar (n % 16)] := by
  rw [natToHexChars]; simp [h]

theorem natToDecChars_lt (n : Nat) (h : n < 10) : natToDecChars n = [digitChar n] := by
  rw [natToDecChars]; simp [h]

theorem natToDecChars_ge (n : Nat) (h : ¬ n < 10) :
    natToDecChars n = natToDecChars (n / 10) ++ [digitChar (n % 10)] := by
  rw [natToDecChars]; simp [h]

theorem natToHexChars_ne_nil (n : Nat) : natToHexChars n ≠ [] := by
  by_cases h : n < 16
  · rw [natToHexChars_lt n h]; simp
  · rw [natToHexChars_ge n h]; simp

theorem natToDecChars_ne_nil (n : Nat) : natToDecChars n ≠ [] := by
  by_cases h : n < 10
  · rw [natToDecChars_lt n h]; simp
  · rw [natToDecChars_ge n h]; simp

theorem natToHexChars_all_lower (n : Nat) :
    (natToHexChars n).all isLowerHexDigitChar = true := by
  induction n using Nat.strong_induction_on with
  | _ n ih =>
    by_cases h : n < 16
    · rw [natToHexChars_lt n h]
      simp [isLowerHex_digitChar n h]
    · rw [natToHexChars_ge n h, List.all_append]
      have h1 := ih (n / 16) (Nat.div_lt_self (by omega) (by omega))
      have h2 := isLowerHex_digitChar (n % 16) (Nat.mod_lt n (by omega))
      simp [h1, h2]

theorem natToDecChars_all_dec (n : Nat) :
    (natToDecChars n).all isDecDigitChar = true := by
  induction n using Nat.strong_induction_on with
  | _ n ih =>
    by_cases h : n < 10
    · rw [natToDecChars_lt n h]
      simp [isDec_digitChar n h]
    · rw [natToDecChars_ge n h, List.all_append]
      have h1 := ih (n / 10) (Nat.div_lt_self (by omega) (by omega))
      have h2 := isDec_digitChar (n % 10) (Nat.mod_lt n (by omega))
      simp [h1, h2]

theorem natToHexChars_head (n : Nat) (h : n ≠ 0) : (natToHexChars n).head? ≠ some '0' := by
  induction n using Nat.strong_induction_on with
  | _ n ih =>
    by_cases h16 : n < 16
    · rw [natToHexChars_lt n h16]
      simp only [List.head?_cons, ne_eq, Option.some.injEq]
      exact digitChar_ne_zero n h16 h
    · rw [natToHexChars_ge n h16]
      have hne := natToHexChars_ne_nil (n / 16)
      cases hE : natToHexChars (n / 16) with
      | nil => exact absurd hE hne
      | cons a l =>
        have hd : n / 16 ≠ 0 := by
          intro hz
          have : n < 16 := by omega
          exact h16 this
        have := ih (n / 16) (Nat.div_lt_self (by omega) (by omega)) hd
        rw [hE] at this
        simpa using this

theorem natToDecChars_head (n : Nat) (h : n ≠ 0) : (natToDecChars n).head? ≠ some '0' := by
  induction n using Nat.strong_induction_on with
  | _ n ih =>
    by_cases h10 : n < 10
    · rw [natToDecChars_lt n h10]
      simp only [List.head?_cons, ne_eq, Option.some.injEq]
      exact digitChar_ne_zero n (by omega) h
    · rw [natToDecChars_ge n h10]
      have hne := natToDecChars_ne_nil (n / 10)
      cases hE : natToDecChars (n / 10) with
      | nil => exact absurd hE hne
      | cons a l =>
        have hd : n / 10 ≠ 0 := by
          intro hz
          have : n < 10 := by omega
          exact h10 this
        have := ih (n / 10) (Nat.div_lt_self (by omega) (by omega)) hd
        rw [hE] at this
        simpa using this

theorem hexCharsVal_append_digit (l : List Char) (c : Char) :
    hexCharsVal (l ++ [c]) = 16 * hexCharsVal l + hexCharVal c := by
  simp [hexCharsVal, List.foldl_append]

theorem decCharsVal_append_digit (l : List Char) (c : Char) :
    decCharsVal (l ++ [c]) = 10 * decCharsVal l + decCharVal c := by
  simp [decCharsVal, List.foldl_append]

theorem hexCharsVal_natToHexChars (n : Nat) : hexCharsVal (natToHexChars n) = n := by
  induction n using Nat.strong_induction_on with
  | _ n ih =>
    by_cases h : n < 16
    · rw [natToHexChars_lt n h]
      simp [hexCharsVal, hexCharVal_digitChar n h]
    · rw [natToHexChars_ge n h, hexCharsVal_append_digit,
        ih (n / 16) (Nat.div_lt_self (by omega) (by omega)),
        hexCharVal_digitChar (n % 16) (Nat.mod_lt n (by omega))]
      omega

theorem decCharsVal_natToDecChars (n : Nat) : decCharsVal (natToDecChars n) = n := by
  induction n using Nat.strong_induction_on with
  | _ n ih =>
    by_cases h : n < 10
    · rw [natToDecChars_lt n h]
      simp [decCharsVal, decCharVal_digitChar n h]
    · rw [natToDecChars_ge n h, decCharsVal_append_digit,
        ih (n / 10) (Nat.div_lt_self (by omega) (by omega)),
        decCharVal_digitChar (n % 10) (Nat.mod_lt n (by omega))]
      omega

theorem natToHexChars_length_le (k : Nat) :
    ∀ n, 1 ≤ k → n < 16 ^ k → (natToHexChars n).length ≤ k := by
  induction k with
  | zero => intro n hk _; omega
  | succ k ih =>
    intro n _ hlt
    by_cases h : n < 16
    · rw [natToHexChars_lt n h]; simp
    · rw [natToHexChars_ge n h, List.length_append]
      have hk1 : 1 ≤ k := by
        by_contra hc
        have hk0 : k = 0 := by omega
        rw [hk0, pow_one] at hlt
        exact h hlt
      have hdiv : n / 16 < 16 ^ k := by
        rw [Nat.div_lt_iff_lt_mul (by norm_num)]
        calc n < 16 ^ (k + 1) := hlt
          _ = 16 ^ k * 16 := by rw [pow_succ]
      have := ih (n / 16) hk1 hdiv
      simp only [List.length_cons, List.length_nil]
      omega

/-! ### Facts about the parser and the prefix helpers -/

theorem parseBigIntChars_hexCase (x : Char) (rest : List Char) (hx : x = 'x' ∨ x = 'X')
    (h1 : rest ≠ []) (h2 : rest.all isHexDigitChar = true) :
    parseBigIntChars ('0' :: x :: rest) = some ((hexCharsVal rest : Nat) : Int) := by
  rcases hx with hx | hx <;> subst hx <;> simp [parseBigIntChars, h1, h2]

theorem parseBigIntChars_decCase (l : List Char) (h1 : l ≠ [])
    (h2 : l.all isDecDigitChar = true) :
    parseBigIntChars l = some ((decCharsVal l : Nat) : Int) := by
  cases l with
  | nil => exact absurd rfl h1
  | cons c rest =>
    rw [List.all_cons] at h2
    have hc : isDecDigitChar c = true := by
      cases hb : isDecDigitChar c
      · rw [hb] at h2; simp at h2
      · rfl
    have hrest : rest.all isDecDigitChar = true := by
      cases hb : rest.all isDecDigitChar
      · rw [hb] at h2; simp at h2
      · rfl
    have hcx : ¬(c = '0' ∧ (rest.head? = some 'x' ∨ rest.head? = some 'X')) := by
      rintro ⟨_, hx | hx⟩ <;>
      · cases rest with
        | nil => simp at hx
        | cons a t =>
          rw [List.head?_cons, Option.some.injEq] at hx
          have hda := List.all_eq_true.mp hrest a (List.mem_cons_self a t)
          rw [hx] at hda
          exact absurd hda (by decide)
    have hcm : c ≠ '-' := by intro he; subst he; exact absurd hc (by decide)
    have hcp : c ≠ '+' := by intro he; subst he; exact absurd hc (by decide)
    have hall : (c :: rest).all isDecDigitChar = true := by
      rw [List.all_cons, hc, hrest]; rfl
    simp [parseBigIntChars, hcx, hcm, hcp, hall]

theorem removeHexPfx_0x (x : Char) (rest : List Char) (hx : x = 'x' ∨ x = 'X') :
    removeHexPfxChars ('0' :: x :: rest) = rest := by
  rcases hx with hx | hx <;> subst hx <;> simp [removeHexPfxChars]

theorem removeHexPfx_no_x (l : List Char) (h : ∀ c ∈ l, c ≠ 'x' ∧ c ≠ 'X') :
    removeHexPfxChars l = l := by
  rw [removeHexPfxChars, if_neg]
  rintro ⟨_, hx | hx⟩ <;>
  · cases hE : l.drop 1 with
    | nil => rw [hE] at hx; simp at hx
    | cons a t =>
      rw [hE, List.head?_cons, Option.some.injEq] at hx
      have ha : a ∈ l :=
        List.Sublist.mem (hE.symm ▸ List.mem_cons_self a t) (List.drop_sublist 1 l)
      subst hx
      first
      | exact (h _ ha).1 rfl
      | exact (h _ ha).2 rfl

theorem addHexPfx_0x (x : Char) (rest : List Char) (hx : x = 'x' ∨ x = 'X') :
    addHexPfxChars ('0' :: x :: rest) = '0' :: 'x' :: rest := by
  rw [addHexPfxChars, removeHexPfx_0x x rest hx]

theorem addHexPfx_no_x (l : List Char) (h : ∀ c ∈ l, c ≠ 'x' ∧ c ≠ 'X') :
    addHexPfxChars l = '0' :: 'x' :: l := by
  rw [addHexPfxChars, removeHexPfx_no_x l h]

theorem no_x_of_all_lower (l : List Char) (h : l.all isLowerHexDigitChar = true) :
    ∀ c ∈ l, c ≠ 'x' ∧ c ≠ 'X' :=
  fun c hc => lowerHex_ne_x c (List.all_eq_true.mp h c hc)

theorem isHexChars_iff (l : List Char) :
    isHexChars l = true ↔
      ∃ x rest, l = '0' :: x :: rest ∧ (x = 'x' ∨ x = 'X') ∧
        rest.all isHexDigitChar = true := by
  constructor
  · intro h
    cases l with
    | nil => simp [isHexChars] at h
    | cons a t =>
      cases t with
      | nil => simp [isHexChars] at h
      | cons b t2 =>
        simp only [isHexChars, List.head?_cons, List.drop_succ_cons, List.drop_zero,
          Bool.and_eq_true, decide_eq_true_eq, Option.some.injEq] at h
        obtain ⟨⟨ha, hb⟩, hall⟩ := h
        subst ha
        exact ⟨b, t2, rfl, hb, hall⟩
  · rintro ⟨x, rest, heq, hx, hall⟩
    subst heq
    rcases hx with hx | hx <;> subst hx <;>
      simp [isHexChars, hall]

theorem isWholeChars_iff (l : List Char) :
    isWholeChars l = true ↔ l ≠ [] ∧ l.all isDecDigitChar = true := by
  rw [isWholeChars]
  cases l <;> simp

/-! ### Facts about the noble byte decoder -/

theorem hexToBytesNobleChars_ok :
    ∀ l : List Char, l.all isHexDigitChar = true → l.length % 2 = 0 →
      ∃ bs, hexToBytesNobleChars l = some bs
  | [], _, _ => ⟨[], rfl⟩
  | [c], _, he => by simp at he
  | c1 :: c2 :: rest, h, he => by
    simp only [List.all_cons, Bool.and_eq_true] at h
    obtain ⟨hc1, hc2, hrest⟩ := h
    have he2 : rest.length % 2 = 0 := by
      simp only [List.length_cons] at he
      omega
    obtain ⟨bs, hbs⟩ := hexToBytesNobleChars_ok rest hrest he2
    exact ⟨(16 * hexCharVal c1 + hexCharVal c2) :: bs,
      by simp [hexToBytesNobleChars, hc1, hc2, hbs]⟩

/-! ### Structure of `cleanHex` on hex strings -/

theorem cleanHexChars_of_hex (x : Char) (rest : List Char) (hx : x = 'x' ∨ x = 'X') :
    cleanHexChars ('0' :: x :: rest) =
      '0' :: 'x' :: (rest.map jsCharToLower).dropWhile (fun c => c = '0') := by
  have hxl : jsCharToLower x = 'x' := by
    rcases hx with hx | hx <;> subst hx <;> decide
  have h0 : jsCharToLower '0' = '0' := by decide
  rw [cleanHexChars]
  simp only [List.map_cons, h0, hxl, List.head?_cons, List.drop_succ_cons, List.drop_zero,
    and_self, if_pos]

/-! ### Bridge lemmas at the string level -/

theorem all_lower_to_CI (l : List Char) (h : l.all isLowerHexDigitChar = true) :
    l.all isHexDigitChar = true :=
  List.all_eq_true.mpr (fun c hc => lowerHex_isHexDigit c (List.all_eq_true.mp h c hc))

theorem natToHexChars_zero : natToHexChars 0 = ['0'] := by
  rw [natToHexChars_lt 0 (by omega)]; rfl

theorem natToDecChars_zero : natToDecChars 0 = ['0'] := by
  rw [natToDecChars_lt 0 (by omega)]; rfl

theorem bigIntToHexChars_nonneg (v : Int) (h : 0 ≤ v) :
    bigIntToHexChars v = natToHexChars v.toNat := by
  rw [bigIntToHexChars, if_neg (not_lt.mpr h)]

theorem bigIntToDecChars_nonneg (v : Int) (h : 0 ≤ v) :
    bigIntToDecChars v = natToDecChars v.toNat := by
  rw [bigIntToDecChars, if_neg (not_lt.mpr h)]

theorem toBigInt_whole (s : String) (h : isStringWholeNumber s = true) :
    toBigInt (.str s) = some ((decCharsVal s.data : Nat) : Int) := by
  obtain ⟨hne, hall⟩ := (isWholeChars_iff s.data).mp h
  exact parseBigIntChars_decCase s.data hne hall

theorem toHex_eq_of_nonneg (b : BigNumberish) (v : Int) (h : toBigInt b = some v)
    (hv : 0 ≤ v) : toHex b = some ⟨'0' :: 'x' :: natToHexChars v.toNat⟩ := by
  rw [toHex, h, Option.map_some', bigIntToHexChars_nonneg v hv,
    addHexPfx_no_x _ (no_x_of_all_lower _ (natToHexChars_all_lower v.toNat))]

theorem hexToDecimalString_0x (x : Char) (rest : List Char) (hx : x = 'x' ∨ x = 'X')
    (h1 : rest ≠ []) (h2 : rest.all isHexDigitChar = true) :
    hexToDecimalString ⟨'0' :: x :: rest⟩ = some ⟨natToDecChars (hexCharsVal rest)⟩ := by
  show (parseBigIntChars (addHexPfxChars ('0' :: x :: rest))).map _ = _
  rw [addHexPfx_0x x rest hx, parseBigIntChars_hexCase 'x' rest (Or.inl rfl) h1 h2,
    Option.map_some', bigIntToDecChars_nonneg _ (Int.natCast_nonneg _)]
  simp

theorem map_jsCharToLower_fix (l : List Char) (h : l.all isLowerHexDigitChar = true) :
    l.map jsCharToLower = l := by
  have := List.map_congr_left
    (fun a ha => jsCharToLower_fix a (List.all_eq_true.mp h a ha))
  simpa using this

theorem map_lower_all (l : List Char) (h : l.all isHexDigitChar = true) :
    (l.map jsCharToLower).all isLowerHexDigitChar = true := by
  rw [List.all_map]
  exact List.all_eq_true.mpr
    (fun c hc => jsCharToLower_lowerHex c (List.all_eq_true.mp h c hc))

theorem all_dropWhile (p q : Char → Bool) (l : List Char) (h : l.all q = true) :
    (l.dropWhile p).all q = true :=
  List.all_eq_true.mpr
    (fun x hx => List.all_eq_true.mp h x (List.Sublist.mem hx (List.dropWhile_sublist p)))

theorem dropWhile_head_ne (p : Char → Bool) (l : List Char) (a : Char)
    (h : (l.dropWhile p).head? = some a) : p a = false := by
  have hk := List.head?_dropWhile_not p l
  rw [h] at hk
  exact hk

theorem dropWhile_dropWhile_eq (p : Char → Bool) (l : List Char) :
    (l.dropWhile p).dropWhile p = l.dropWhile p := by
  cases hE : l.dropWhile p with
  | nil => rfl
  | cons a t =>
    have ha : p a = false := dropWhile_head_ne p l a (by rw [hE]; rfl)
    rw [List.dropWhile_cons, ha]
    simp

theorem cleanHex_of_isHex (s : String) (h : isHex s = true) :
    cleanHex s =
      ⟨'0' :: 'x' :: ((s.data.drop 2).map jsCharToLower).dropWhile (fun c => c = '0')⟩ := by
  obtain ⟨x, rest, hdata, hx, _⟩ := (isHexChars_iff s.data).mp h
  rw [cleanHex, hdata, cleanHexChars_of_hex x rest hx]
  simp

/-! ### Claim theorems -/

/-- C10: the string `0x` is accepted by `isBigNumberish` (it matches the hex
pattern with zero digits) yet `toBigInt` fails on it, so `isBigNumberish`
being true does not guarantee that `toBigInt` succeeds. -/
theorem isBigNumberish_c10 :
    isBigNumberish (.str "0x") = true ∧ toBigInt (.str "0x") = none := by
  decide

/-- C3: `addPercent(base, percent)` equals `base + (base * percent) / 100`
where the division is exact arbitrary-precision integer division truncating
toward zero (witnessed by the sign/natAbs characterization and by
`(-50) / 100 = 0`, where floor division would give `-1`); in particular
`addPercent(100, 50) = 150`, `addPercent(100, 100) = 200`,
`addPercent(200, -100) = 0` and `addPercent(200, -150) = -100`. -/
theorem addPercent_c3 :
    (∀ (b : BigNumberish) (p v : Int), toBigInt b = some v →
        addPercent b p = some (v + jsBigIntDiv (v * p) 100)) ∧
    (∀ a : Int, jsBigIntDiv a 100 = a.sign * ((a.natAbs / 100 : Nat) : Int)) ∧
    jsBigIntDiv (-50) 100 = 0 ∧
    addPercent (.num 100) 50 = some 150 ∧
    addPercent (.num 100) 100 = some 200 ∧
    addPercent (.num 200) (-100) = some 0 ∧
    addPercent (.num 200) (-150) = some (-100) := by
  refine ⟨?_, ?_, by decide, by decide, by decide, by decide, by decide⟩
  · intro b p v h
    rw [addPercent, h, Option.map_some']
  · intro a
    rw [jsBigIntDiv, show ((100 : Int)).sign = 1 from rfl,
      show ((100 : Int)).natAbs = 100 from rfl]
    ring

/-- Witness for C3 at a concrete input. -/
theorem addPercent_c3_witness :
    addPercent (.num 7) 50 = some (7 + jsBigIntDiv (7 * 50) 100) :=
  addPercent_c3.1 (.num 7) 50 7 rfl

/-- C5 counterexample: the source regex `^(0x)0+` strips every leading zero,
including the last one, so an all-zero hex string cleans to `0x`, not to the
`0x0` the claim asserts. -/
theorem cleanHex_c5_counterexample :
    cleanHex "0x000" = "0x" ∧ cleanHex "0x000" ≠ "0x0" := by
  constructor <;> decide

/-- C5 amended: for every hex string, `cleanHex` returns the lowercased
string with all leading zero digits after the `0x` prefix stripped — the
value zero keeps no digit at all, so an all-zero hex string cleans to
`0x`. -/
theorem cleanHex_c5_amended (s : String) (h : isHex s = true) :
    cleanHex s =
      ⟨'0' :: 'x' :: ((s.data.drop 2).map jsCharToLower).dropWhile (fun c => c = '0')⟩ :=
  cleanHex_of_isHex s h

/-- Witness for C5 at a concrete input. -/
theorem cleanHex_c5_witness :
    cleanHex "0x00Ab" =
      ⟨'0' :: 'x' ::
        ((("0x00Ab" : String).data.drop 2).map jsCharToLower).dropWhile (fun c => c = '0')⟩ :=
  cleanHex_c5_amended "0x00Ab" (by decide)

/-- C6: `cleanHex` is idempotent on hex strings. -/
theorem cleanHex_c6_idem (s : String) (h : isHex s = true) :
    cleanHex (cleanHex s) = cleanHex s := by
  obtain ⟨x, rest, hdata, hx, hall⟩ := (isHexChars_iff s.data).mp h
  have h1 : cleanHex s = ⟨'0' :: 'x' :: (rest.map jsCharToLower).dropWhile (fun c => c = '0')⟩ := by
    rw [cleanHex, hdata, cleanHexChars_of_hex x rest hx]
  set d := (rest.map jsCharToLower).dropWhile (fun c => c = '0') with hd
  have hdl : d.all isLowerHexDigitChar = true := by
    rw [hd]
    exact all_dropWhile _ _ _ (map_lower_all rest hall)
  have h2 : cleanHex ⟨'0' :: 'x' :: d⟩ =
      ⟨'0' :: 'x' :: (d.map jsCharToLower).dropWhile (fun c => c = '0')⟩ := by
    rw [cleanHex]
    exact congrArg String.mk (cleanHexChars_of_hex 'x' d (Or.inl rfl))
  have h3 : (d.dropWhile (fun c => c = '0')) = d := by
    rw [hd]
    exact dropWhile_dropWhile_eq _ _
  rw [h1, h2, map_jsCharToLower_fix d hdl, h3]

/-- Witness for C6 at a concrete input. -/
theorem cleanHex_c6_witness :
    cleanHex (cleanHex "0x00AB") = cleanHex "0x00AB" :=
  cleanHex_c6_idem "0x00AB" (by decide)

/-- C2 counterexample: a negative numeric-like value breaks canonicity:
`BigInt.prototype.toString(16)` renders `-5` as `-5`, so `toHex` produces
`0x-5`, which is not a canonical hex string. -/
theorem toHex_c2_counterexample :
    toHex (.big (-5)) = some "0x-5" ∧ isCanonicalHexSpec "0x-5" = false := by
  have h5 : natToHexChars 5 = ['5'] := by
    rw [natToHexChars_lt 5 (by omega)]; decide
  have h1 : bigIntToHexChars (-5) = ['-', '5'] := by
    rw [bigIntToHexChars, if_pos (by decide), show ((-5 : Int)).natAbs = 5 from rfl, h5]
  constructor
  · rw [toHex, show toBigInt (.big (-5)) = some (-5) from rfl, Option.map_some', h1]
    decide
  · decide

/-- C2 amended: for every numeric-like value denoting a non-negative
integer, `toHex` returns a canonical hex string: `0x` prefix, lowercase hex
digits, and no leading zero digit except a single `0` for zero itself. -/
theorem toHex_c2_amended (b : BigNumberish) (v : Int) (h : toBigInt b = some v)
    (hv : 0 ≤ v) :
    ∃ s, toHex b = some s ∧ s.data = '0' :: 'x' :: natToHexChars v.toNat ∧
      isCanonicalHexSpec s = true := by
  refine ⟨_, toHex_eq_of_nonneg b v h hv, rfl, ?_⟩
  have hne : natToHexChars v.toNat ≠ [] := natToHexChars_ne_nil _
  have hall : (natToHexChars v.toNat).all isLowerHexDigitChar = true :=
    natToHexChars_all_lower _
  by_cases hz : v.toNat = 0
  · rw [isCanonicalHexSpec]
    rw [show (⟨'0' :: 'x' :: natToHexChars v.toNat⟩ : String).data
        = '0' :: 'x' :: natToHexChars v.toNat from rfl, hz, natToHexChars_zero]
    decide
  · have hh : (natToHexChars v.toNat).head? ≠ some '0' := natToHexChars_head _ hz
    rw [isCanonicalHexSpec]
    rw [show (⟨'0' :: 'x' :: natToHexChars v.toNat⟩ : String).data
        = '0' :: 'x' :: natToHexChars v.toNat from rfl]
    simp only [List.head?_cons, List.drop_succ_cons, List.drop_zero, Option.some.injEq,
      decide_eq_true_eq]
    simp [hne, hall, hh]

/-- Witness for C2 at a concrete input. -/
theorem toHex_c2_witness :
    ∃ s, toHex (.num 26) = some s ∧
      s.data = '0' :: 'x' :: natToHexChars (26 : Int).toNat ∧
      isCanonicalHexSpec s = true :=
  toHex_c2_amended (.num 26) 26 rfl (by decide)

/-- C1: for every numeric-like input denoting a non-negative integer below
`2 ^ 256`, `toStorageKey` returns the string `0x` followed by the hex
representation left-zero-padded to exactly 64 hex digits, 66 characters in
total. -/
theorem toStorageKey_c1 (b : BigNumberish) (v : Int) (h : toBigInt b = some v)
    (h2 : 0 ≤ v) (h3 : v < 2 ^ 256) :
    ∃ s, toStorageKey b = some s ∧
      s.data = '0' :: 'x' :: padStartChars 64 '0' (natToHexChars v.toNat) ∧
      s.length = 66 ∧
      (s.data.drop 2).length = 64 ∧
      (s.data.drop 2).all isHexDigitChar = true := by
  have hlen : (natToHexChars v.toNat).length ≤ 64 := by
    apply natToHexChars_length_le 64 _ (by omega)
    have h256 : (16 : Nat) ^ 64 = 2 ^ 256 := by norm_num
    rw [h256]
    have hv' : (v.toNat : Int) = v := Int.toNat_of_nonneg h2
    have hlt : (v.toNat : Int) < (2 : Int) ^ 256 := by rw [hv']; exact h3
    exact_mod_cast hlt
  set pad := padStartChars 64 '0' (natToHexChars v.toNat) with hpad
  have hnox : ∀ c ∈ pad, c ≠ 'x' ∧ c ≠ 'X' := by
    intro c hc
    rw [hpad, padStartChars] at hc
    rcases List.mem_append.mp hc with hc | hc
    · have hc0 := (List.mem_replicate.mp hc).2
      subst hc0
      exact ⟨by decide, by decide⟩
    · exact no_x_of_all_lower _ (natToHexChars_all_lower _) c hc
  have hpadlen : pad.length = 64 := by
    rw [hpad, padStartChars, List.length_append, List.length_replicate]
    omega
  have hall : pad.all isHexDigitChar = true := by
    apply List.all_eq_true.mpr
    intro c hc
    rw [hpad, padStartChars] at hc
    rcases List.mem_append.mp hc with hc | hc
    · have hc0 := (List.mem_replicate.mp hc).2
      subst hc0
      decide
    · exact lowerHex_isHexDigit c (List.all_eq_true.mp (natToHexChars_all_lower _) c hc)
  refine ⟨⟨'0' :: 'x' :: pad⟩, ?_, rfl, ?_, ?_, ?_⟩
  · rw [toStorageKey, h, Option.map_some', bigIntToHexChars_nonneg v h2, ← hpad,
      addHexPfx_no_x pad hnox]
  · show ('0' :: 'x' :: pad).length = 66
    simp only [List.length_cons, hpadlen]
  · show (List.drop 2 ('0' :: 'x' :: pad)).length = 64
    simp only [List.drop_succ_cons, List.drop_zero]
    exact hpadlen
  · show (List.drop 2 ('0' :: 'x' :: pad)).all isHexDigitChar = true
    simp only [List.drop_succ_cons, List.drop_zero]
    exact hall

/-- Witness for C1 at a concrete input. -/
theorem toStorageKey_c1_witness :
    ∃ s, toStorageKey (.num 1) = some s ∧
      s.data = '0' :: 'x' :: padStartChars 64 '0' (natToHexChars (1 : Int).toNat) ∧
      s.length = 66 ∧
      (s.data.drop 2).length = 64 ∧
      (s.data.drop 2).all isHexDigitChar = true :=
  toStorageKey_c1 (.num 1) 1 rfl (by decide) (by norm_num)

/-- C4: for every whole-number decimal string `d`, the round trip
`hexToDecimalString(toHex(d))` returns the minimal decimal string of the
number `d` denotes (so leading zeros of `d` are removed: the result has no
leading zero digit unless the value is zero, and it denotes the same
number as `d`). -/
theorem roundtrip_c4 (d : String) (h : isStringWholeNumber d = true) :
    ∃ hx, toHex (.str d) = some hx ∧
      hexToDecimalString hx = some ⟨natToDecChars (decCharsVal d.data)⟩ ∧
      decCharsVal (natToDecChars (decCharsVal d.data)) = decCharsVal d.data ∧
      ((natToDecChars (decCharsVal d.data)).head? ≠ some '0' ∨ decCharsVal d.data = 0) := by
  set n := decCharsVal d.data with hn
  have htb : toBigInt (.str d) = some (n : Int) := toBigInt_whole d h
  have hto : toHex (.str d) = some ⟨'0' :: 'x' :: natToHexChars n⟩ := by
    have hh := toHex_eq_of_nonneg (.str d) (n : Int) htb (Int.natCast_nonneg n)
    simpa using hh
  refine ⟨_, hto, ?_, decCharsVal_natToDecChars n, ?_⟩
  · rw [hexToDecimalString_0x 'x' (natToHexChars n) (Or.inl rfl) (natToHexChars_ne_nil n)
      (all_lower_to_CI _ (natToHexChars_all_lower n)), hexCharsVal_natToHexChars n]
  · by_cases hz : n = 0
    · right; exact hz
    · left; exact natToDecChars_head n hz

/-- Witness for C4 at a concrete input. -/
theorem roundtrip_c4_witness :
    ∃ hx, toHex (.str "0100") = some hx ∧
      hexToDecimalString hx = some ⟨natToDecChars (decCharsVal ("0100" : String).data)⟩ ∧
      decCharsVal (natToDecChars (decCharsVal ("0100" : String).data))
        = decCharsVal ("0100" : String).data ∧
      ((natToDecChars (decCharsVal ("0100" : String).data)).head? ≠ some '0' ∨
        decCharsVal ("0100" : String).data = 0) :=
  roundtrip_c4 "0100" (by decide)

/-- C7: `hexToBytes` throws a FormatError exactly when its input does not
match the case-insensitive hex pattern (on hex input the decode always
succeeds); an odd number of hex digits is left-padded with one zero nibble,
so `hexToBytes("0xa")` equals `hexToBytes("0x0a")`, and `hexToBytes("0x64")`
yields the single byte 100. -/
theorem hexToBytes_c7 :
    (∀ s : String,
      (isHex s = false →
        hexToBytes s = .error (.formatError (s ++ " needs to be a hex-string"))) ∧
      (isHex s = true → ∃ bs, hexToBytes s = .ok bs)) ∧
    hexToBytes "0xa" = hexToBytes "0x0a" ∧
    hexToBytes "0x64" = .ok [100] := by
  refine ⟨?_, by decide, by decide⟩
  intro s
  constructor
  · intro h
    rw [hexToBytes, if_pos h]
  · intro h
    obtain ⟨x, rest, hdata, hx, hall⟩ := (isHexChars_iff s.data).mp h
    have hrm : removeHexPfxChars s.data = rest := by
      rw [hdata]; exact removeHexPfx_0x x rest hx
    have hallp : (if rest.length % 2 ≠ 0 then '0' :: rest else rest).all isHexDigitChar
        = true := by
      split
      · rw [List.all_cons, hall]; decide
      · exact hall
    have hevp : (if rest.length % 2 ≠ 0 then '0' :: rest else rest).length % 2 = 0 := by
      by_cases hq : rest.length % 2 ≠ 0
      · rw [if_pos hq]
        simp only [List.length_cons]
        omega
      · rw [if_neg hq]
        omega
    obtain ⟨bs, hbs⟩ := hexToBytesNobleChars_ok _ hallp hevp
    refine ⟨bs, ?_⟩
    rw [hexToBytes, if_neg (by rw [h]; simp)]
    simp only [hrm, hbs]

/-- Witness for C7 at concrete inputs. -/
theorem hexToBytes_c7_witness :
    hexToBytes "zz" = .error (.formatError ("zz" ++ " needs to be a hex-string")) ∧
    (∃ bs, hexToBytes "0xff" = .ok bs) :=
  ⟨(hexToBytes_c7.1 "zz").1 (by decide), (hexToBytes_c7.1 "0xff").2 (by decide)⟩

/-- C9: `assertInRange` returns silently exactly when
`lower ≤ value ≤ upper` (both bounds inclusive), and otherwise throws a
RangeError whose message embeds the supplied label, falling back to the
phrase `invalid length` when the label is empty. -/
theorem assertInRange_c9 (input lower upper : BigNumberish) (name : String)
    (iv lv uv : Int) (h1 : toBigInt input = some iv) (h2 : toBigInt lower = some lv)
    (h3 : toBigInt upper = some uv) :
    (assertInRange input lower upper name = .ok () ↔ lv ≤ iv ∧ iv ≤ uv) ∧
    ((iv < lv ∨ uv < iv) →
      assertInRange input lower upper name =
        .error (.rangeError ("Message not signable, " ++
          (if name = "" then "invalid length" else "invalid " ++ name ++ " length") ++ "."))) := by
  have hred : assertInRange input lower upper name =
      assert (decide (lv ≤ iv) && decide (iv ≤ uv))
        ("Message not signable, " ++
          (if name = "" then "invalid length" else "invalid " ++ name ++ " length") ++ ".") := by
    rw [assertInRange, h1, h2, h3]
  constructor
  · rw [hred]
    constructor
    · intro hok
      by_contra hc
      have hcond : (decide (lv ≤ iv) && decide (iv ≤ uv)) = false := by
        by_cases ha : lv ≤ iv
        · by_cases hb : iv ≤ uv
          · exact absurd ⟨ha, hb⟩ hc
          · simp [hb]
        · simp [ha]
      rw [assert, hcond] at hok
      simp at hok
    · rintro ⟨ha, hb⟩
      rw [assert]
      simp [ha, hb]
  · intro hout
    rw [hred, assert]
    have hcond : (decide (lv ≤ iv) && decide (iv ≤ uv)) = false := by
      rcases hout with hlt | hgt
      · simp [not_le.mpr hlt]
      · simp [not_le.mpr hgt]
    simp [hcond]

/-- Witness for C9 at concrete inputs. -/
theorem assertInRange_c9_witness :
    assertInRange (.num 25) (.num 5) (.num 20) "value" =
      .error (.rangeError "Message not signable, invalid value length.") ∧
    assertInRange (.num 10) (.num 5) (.num 20) "" = .ok () := by
  constructor
  · have hh := (assertInRange_c9 (.num 25) (.num 5) (.num 20) "value" 25 5 20
      rfl rfl rfl).2 (Or.inr (by decide))
    rw [hh]
    rfl
  · exact (assertInRange_c9 (.num 10) (.num 5) (.num 20) "" 10 5 20 rfl rfl rfl).1.mpr
      ⟨by decide, by decide⟩

/-- C8 counterexample: the bare string `0x` matches the hex pattern (zero
digits are allowed), yet `getDecimalString` does not return a decimal
string for it: the underlying `BigInt` parse fails, so a ParseError — not a
value — is produced on an input that matches the hex pattern. -/
theorem getStrings_c8_counterexample :
    isHex "0x" = true ∧ getDecimalString "0x" = .error .parseError := by
  refine ⟨by decide, ?_⟩
  have hms : hexToDecimalString "0x" = none := by decide
  rw [getDecimalString, if_pos (by decide), hms]

/-- C8 amended: `getDecimalString` and `getHexString` throw a FormatError
exactly when the input matches neither the hex nor the whole-number
pattern.  When the input matches, `getHexString` behaves as claimed
(hex input as-is, whole-number input converted), and `getDecimalString`
converts hex input with at least one hex digit and returns whole-number
input as-is; however on the degenerate hex strings with no digits (`0x`,
`0X`) `getDecimalString` raises a ParseError instead of returning a value.
In particular `getDecimalString("0x1a") = "26"`. -/
theorem getStrings_c8_amended :
    (∀ s : String,
      (isHex s = false → isStringWholeNumber s = false →
        getDecimalString s =
          .error (.formatError (s ++ " needs to be a hex-string or whole-number-string")) ∧
        getHexString s =
          .error (.formatError (s ++ " needs to be a hex-string or whole-number-string"))) ∧
      (isHex s = true → getHexString s = .ok s) ∧
      (isHex s = true → 2 < s.data.length →
        getDecimalString s = .ok ⟨natToDecChars (hexCharsVal (s.data.drop 2))⟩) ∧
      (isHex s = true → s.data.length = 2 → getDecimalString s = .error .parseError) ∧
      (isStringWholeNumber s = true → isHex s = false →
        getDecimalString s = .ok s ∧
        getHexString s = .ok ⟨'0' :: 'x' :: natToHexChars (decCharsVal s.data)⟩)) ∧
    getDecimalString "0x1a" = .ok "26" := by
  constructor
  · intro s
    refine ⟨?_, ?_, ?_, ?_, ?_⟩
    · intro h1 h2
      constructor
      · rw [getDecimalString, if_neg (by rw [h1]; simp), if_neg (by rw [h2]; simp)]
      · rw [getHexString, if_neg (by rw [h1]; simp), if_neg (by rw [h2]; simp)]
    · intro h
      rw [getHexString, if_pos h]
    · intro h hlen
      obtain ⟨x, rest, hdata, hx, hall⟩ := (isHexChars_iff s.data).mp h
      have hs' : s = ⟨'0' :: x :: rest⟩ := by
        cases s with
        | mk dt => exact congrArg String.mk hdata
      subst hs'
      have hrne : rest ≠ [] := by
        intro hz
        rw [show (⟨'0' :: x :: rest⟩ : String).data = '0' :: x :: rest from rfl, hz] at hlen
        simp at hlen
      have hsd : hexToDecimalString ⟨'0' :: x :: rest⟩
          = some ⟨natToDecChars (hexCharsVal rest)⟩ :=
        hexToDecimalString_0x x rest hx hrne hall
      rw [getDecimalString, if_pos h, hsd]
      rfl
    · intro h hlen
      obtain ⟨x, rest, hdata, hx, _⟩ := (isHexChars_iff s.data).mp h
      have hs' : s = ⟨'0' :: x :: rest⟩ := by
        cases s with
        | mk dt => exact congrArg String.mk hdata
      subst hs'
      have hrz : rest = [] := by
        rw [show (⟨'0' :: x :: rest⟩ : String).data = '0' :: x :: rest from rfl] at hlen
        simp only [List.length_cons] at hlen
        exact List.eq_nil_of_length_eq_zero (by omega)
      subst hrz
      have hsd : hexToDecimalString ⟨'0' :: x :: ([] : List Char)⟩ = none := by
        show (parseBigIntChars (addHexPfxChars ('0' :: x :: ([] : List Char)))).map
          (fun i => (⟨bigIntToDecChars i⟩ : String)) = none
        rw [addHexPfx_0x x [] hx, show parseBigIntChars ['0', 'x'] = none from by decide]
        rfl
      rw [getDecimalString, if_pos h, hsd]
    · intro hw hhex
      constructor
      · rw [getDecimalString, if_neg (by rw [hhex]; simp), if_pos hw]
      · rw [getHexString, if_neg (by rw [hhex]; simp), if_pos hw]
        have hth : toHexString (.str s)
            = some ⟨'0' :: 'x' :: natToHexChars (decCharsVal s.data)⟩ := by
          rw [toHexString]
          have hh := toHex_eq_of_nonneg (.str s) _ (toBigInt_whole s hw)
            (Int.natCast_nonneg _)
          simpa using hh
        rw [hth]
  · have h26 : natToDecChars 26 = ['2', '6'] := by
      rw [natToDecChars_ge 26 (by omega), show (26 : Nat) / 10 = 2 from rfl,
        show (26 : Nat) % 10 = 6 from rfl, natToDecChars_lt 2 (by omega)]
      decide
    have hms : hexToDecimalString "0x1a" = some "26" := by
      have hy := hexToDecimalString_0x 'x' ['1', 'a'] (Or.inl rfl) (by decide) (by decide)
      rw [show ("0x1a" : String) = ⟨'0' :: 'x' :: ['1', 'a']⟩ from by decide, hy,
        show hexCharsVal ['1', 'a'] = 26 from by decide, h26]
    rw [getDecimalString, if_pos (by decide), hms]

/-- Witness for C8 at concrete inputs. -/
theorem getStrings_c8_witness :
    getDecimalString "Hello" =
      .error (.formatError ("Hello" ++ " needs to be a hex-string or whole-number-string")) ∧
    getHexString "0xff" = .ok "0xff" ∧
    getDecimalString "77" = .ok "77" :=
  ⟨((getStrings_c8_amended.1 "Hello").1 (by decide) (by decide)).1,
    (getStrings_c8_amended.1 "0xff").2.1 (by decide),
    ((getStrings_c8_amended.1 "77").2.2.2.2 (by decide) (by decide)).1⟩
